import Mathlib

/-!
Verification of the zq-platform backend (FastAPI service layer).

Shallow embedding of `core/dept/service.py` and `core/message/service.py`.
The database is modelled as an in-memory list of rows; each service method
becomes a pure function from the store (plus its explicit arguments and,
where the code reads the clock, a `now` timestamp) to the new store and the
method's return value.  Timestamps are modelled as `Nat`.

ORM `order_by` clauses are kept only where a verified claim depends on
ordering; where a claim is order-insensitive (emptiness / membership of the
result set) the row set is modelled without the sort.
-/

/-- A row of the `department` table.  Fields are the ones the verified
claims touch: the hierarchy fields (`parent_id`, `level`, `path`), the
soft-delete flag, and `name` standing in for the remaining plain
attribute columns. -/
structure Dept where
  id : String
  name : String
  parent_id : Option String
  level : Nat
  path : String
  is_deleted : Bool
deriving Repr, DecidableEq

/-- Python truthiness of an `Optional[str]` value: `None` and `""` are
falsy, every other string is truthy. -/
def optTruthy : Option String → Bool
  | none => false
  | some s => !(s == "")

/-- Python `x or "/"` applied to a string value (`parent.path or '/'` in
`DeptService`): the empty string is falsy and is replaced by `"/"`. -/
def pathOr (p : String) : String :=
  if p == "" then "/" else p

/-- Modelled from the spec: `BaseService.get_by_id` (app/base_service.py is
not under src/).  Spec section 7: a referenced id resolves only to a live
(non-soft-deleted) row; unresolved ids are a reportable not-found. -/
def get_by_id (s : List Dept) (rid : String) : Option Dept :=
  s.find? (fun d => d.id == rid && !d.is_deleted)

/-- In-place ORM mutation of the live row(s) with the given id: the service
methods fetch a row via `get_by_id` and assign its attributes, which the
session persists on commit. -/
def updateRow (s : List Dept) (rid : String) (f : Dept → Dept) : List Dept :=
  s.map (fun d => if d.id == rid && !d.is_deleted then f d else d)

/-- Hierarchy computation shared by `DeptService.create` (service.py lines
109-121) and `DeptService.update` (lines 146-158): resolve `parent_id`; a
resolved parent gives `(parent.level + 1, parent.path or '/' + parent.id + '/')`,
a falsy or unresolved `parent_id` gives root values `(0, "/")`. -/
def computeHier (s : List Dept) (parent_id : Option String) : Nat × String :=
  if optTruthy parent_id then
    match get_by_id s (parent_id.getD "") with
    | some parent => (parent.level + 1, pathOr parent.path ++ parent.id ++ "/")
    | none => (0, "/")
  else (0, "/")

namespace DeptService

/-- `DeptService.create` (service.py lines 102-127): compute `level`/`path`
from the requested parent and insert the new row (the caller-supplied
`parent_id` is stored verbatim, resolved or not).  `newId` is the fresh
primary key the ORM generates for the row. -/
def create (s : List Dept) (newId : String) (name : String)
    (parent_id : Option String) : List Dept × Dept :=
  let hier := computeHier s parent_id
  let db_obj : Dept :=
    { id := newId, name := name, parent_id := parent_id
      level := hier.1, path := hier.2, is_deleted := false }
  (s ++ [db_obj], db_obj)

/-- The partial update payload (`DeptUpdate` with `exclude_unset=True`):
an outer `none` means the key was absent from the payload.  Only the
fields the claims touch are modelled. -/
structure UpdateData where
  name : Option String := none
  parent_id : Option (Option String) := none
deriving Repr

/-- `DeptService.update` (service.py lines 129-165): not-found gives
`none`; if the payload contains `parent_id` the hierarchy fields are
recomputed exactly as in `create` (no cycle guard), otherwise they are
untouched; the remaining payload fields are assigned. -/
def update (s : List Dept) (record_id : String) (data : UpdateData) :
    List Dept × Option Dept :=
  match get_by_id s record_id with
  | none => (s, none)
  | some db_obj =>
    let hier : Option (Nat × String) := data.parent_id.map (computeHier s)
    let newObj : Dept :=
      { db_obj with
        name := data.name.getD db_obj.name
        parent_id := data.parent_id.getD db_obj.parent_id
        level := (hier.map Prod.fst).getD db_obj.level
        path := (hier.map Prod.snd).getD db_obj.path }
    (updateRow s record_id (fun _ => newObj), some newObj)

/-- `DeptService.get_children` (service.py lines 215-228): live rows whose
`parent_id` equals the given id (the `sort`/create-time ordering is
dropped; the claims only use the set). -/
def get_children (s : List Dept) (parent_id : String) : List Dept :=
  s.filter (fun d => d.parent_id == some parent_id && !d.is_deleted)

/-- One step of the `while current and current.parent_id` walk of
`DeptService.get_ancestors` (service.py lines 256-267), with explicit fuel;
`s.length` fuel is enough to reproduce the loop exactly on every store on
which the Python loop terminates, since each appended ancestor is a
distinct live row. -/
def ancestorsAux (s : List Dept) : Nat → Dept → List Dept
  | 0, _ => []
  | fuel + 1, current =>
    if optTruthy current.parent_id then
      match get_by_id s (current.parent_id.getD "") with
      | some parent => parent :: ancestorsAux s fuel parent
      | none => []
    else []

/-- `DeptService.get_ancestors` (service.py lines 251-267): start at the
row for `dept_id` and walk `parent_id` upwards via `get_by_id`, collecting
each resolved parent, immediate parent first; stop at a falsy or
unresolved `parent_id`. -/
def get_ancestors (s : List Dept) (dept_id : String) : List Dept :=
  match get_by_id s dept_id with
  | none => []
  | some current => ancestorsAux s s.length current

end DeptService

/-- SQL `LIKE` pattern matching over character lists, as used by
`Dept.path.like(f"{search_path}%")`: `%` matches any (possibly empty)
substring and `_` matches exactly one character; every other pattern
character matches itself.  No escape character is configured in the
source. -/
def likeMatch : List Char → List Char → Bool
  | [], cs => cs.isEmpty
  | p :: ps, cs =>
    if p == '%' then
      cs.tails.any (fun suffixCs => likeMatch ps suffixCs)
    else
      match cs with
      | [] => false
      | c :: cs' => (p == '_' || p == c) && likeMatch ps cs'

/-- `column.like(pattern)` on string values. -/
def sqlLike (pattern value : String) : Bool :=
  likeMatch pattern.data value.data

/-- `DeptService.get_descendants` (service.py lines 230-249): unresolved
ids give the empty list; otherwise the live rows whose `path` matches the
`LIKE` pattern `dept.path or '/' + dept.id + '/' + '%'` (the
`level`/`sort` ordering is dropped; the claim is about the result set). -/
def DeptService.get_descendants (s : List Dept) (dept_id : String) : List Dept :=
  match get_by_id s dept_id with
  | none => []
  | some dept =>
    let search_path := pathOr dept.path ++ dept.id ++ "/"
    s.filter (fun d => sqlLike (search_path ++ "%") d.path && !d.is_deleted)

namespace DeptService

/-- `DeptService.can_delete` (service.py lines 269-283): blocked with a
reason when live direct children exist; user occupancy is not checked. -/
def can_delete (s : List Dept) (dept_id : String) : Bool × String :=
  let children := get_children s dept_id
  if !children.isEmpty then (false, "该部门下存在子部门，无法删除")
  else (true, "")

/-- Modelled from the spec: `BaseService.delete` (app/base_service.py is
not under src/).  Spec section 4.1: hard delete permanently removes the
row, soft delete sets the deleted flag; section 7: an id that does not
resolve to a live row is a reportable failure. -/
def baseDelete (s : List Dept) (rid : String) (hard : Bool) :
    List Dept × Bool :=
  match get_by_id s rid with
  | none => (s, false)
  | some _ =>
    if hard then (s.filter (fun d => !(d.id == rid && !d.is_deleted)), true)
    else (updateRow s rid (fun d => { d with is_deleted := true }), true)

/-- `DeptService.batch_delete` (service.py lines 309-334): process the ids
in order; an id blocked by `can_delete` or refused by `delete` is appended
to `failed_ids`, a deleted id increments `success_count`. -/
def batch_delete (s : List Dept) (ids : List String) (hard : Bool) :
    List Dept × Nat × List String :=
  match ids with
  | [] => (s, 0, [])
  | dept_id :: rest =>
    let cd := can_delete s dept_id
    if cd.1 then
      let del := baseDelete s dept_id hard
      let r := batch_delete del.1 rest hard
      if del.2 then (r.1, r.2.1 + 1, r.2.2)
      else (r.1, r.2.1, dept_id :: r.2.2)
    else
      let r := batch_delete s rest hard
      (r.1, r.2.1, dept_id :: r.2.2)

/-- `DeptService.move` (service.py lines 556-596): not-found, moving under
oneself, an unresolved target and a target whose ancestor chain contains
the moving department are rejected with the store unchanged; otherwise the
moved row's `parent_id`/`level`/`path` are set from the target (root
values when the target id is falsy). -/
def move (s : List Dept) (dept_id : String) (new_parent_id : Option String) :
    List Dept × Bool × String :=
  match get_by_id s dept_id with
  | none => (s, false, "部门不存在")
  | some dept =>
    if optTruthy new_parent_id then
      let np := new_parent_id.getD ""
      if np == dept_id then (s, false, "不能将自己设置为父部门")
      else
        match get_by_id s np with
        | none => (s, false, "父部门不存在")
        | some new_parent =>
          let ancestor_ids := (get_ancestors s np).map (fun a => a.id)
          if ancestor_ids.contains dept.id || dept.id == new_parent.id then
            (s, false, "不能移动到自己或子部门下")
          else
            (updateRow s dept_id (fun d =>
              { d with parent_id := some np, level := new_parent.level + 1
                       path := pathOr new_parent.path ++ new_parent.id ++ "/" }),
             true, "移动成功")
    else
      (updateRow s dept_id (fun d =>
        { d with parent_id := none, level := 0, path := "/" }),
       true, "移动成功")

end DeptService

/-- A row of the `core_message` table (core/message/model.py lines 18-44).
Timestamps are modelled as `Nat`. -/
structure Message where
  id : String
  recipient_id : String
  title : String
  content : String
  msg_type : String
  status : String
  link_type : String
  link_id : String
  read_at : Option Nat
  sender_id : Option String
  is_deleted : Bool
deriving Repr, DecidableEq

/-- A row of the `core_announcement` table (core/message/model.py lines
47-73).  `target_ids` is the JSON array of target id strings; `read_count`
is nullable in the schema, hence `Option`. -/
structure Announcement where
  id : String
  title : String
  content : String
  summary : String
  status : String
  priority : Int
  is_top : Bool
  target_type : String
  target_ids : List String
  publish_time : Option Nat
  expire_time : Option Nat
  publisher_id : Option String
  read_count : Option Int
  is_deleted : Bool
deriving Repr, DecidableEq

/-- A row of the `core_announcement_read` table (core/message/model.py
lines 76-91). -/
structure AnnouncementRead where
  announcement_id : String
  user_id : String
  read_at : Option Nat
deriving Repr, DecidableEq

namespace MessageService

/-- The row filter of `MessageService.get_by_id` (service.py lines
88-97): same id, same recipient, not soft-deleted. -/
def ownedBy (message_id user_id : String) (m : Message) : Bool :=
  m.id == message_id && m.recipient_id == user_id && !m.is_deleted

/-- `MessageService.get_by_id` (core/message/service.py lines 88-97): the
message with the given id, restricted to the calling recipient's live
rows. -/
def get_by_id (s : List Message) (message_id user_id : String) :
    Option Message :=
  s.find? (ownedBy message_id user_id)

/-- `MessageService.mark_as_read` (core/message/service.py lines 100-111):
not-found (for this recipient) gives `false`; an unread message gets
`status = "read"` and `read_at = now`; a message already read is left
untouched; both owned cases report `true`. -/
def mark_as_read (s : List Message) (message_id user_id : String)
    (now : Nat) : List Message × Bool :=
  match get_by_id s message_id user_id with
  | none => (s, false)
  | some message =>
    if message.status == "unread" then
      (s.map (fun m =>
        if ownedBy message_id user_id m then
          { m with status := "read", read_at := some now } else m), true)
    else (s, true)

/-- `MessageService.delete` (core/message/service.py lines 136-145): soft
delete of the recipient's own message; not-found gives `false`. -/
def delete (s : List Message) (message_id user_id : String) :
    List Message × Bool :=
  match get_by_id s message_id user_id with
  | none => (s, false)
  | some _ =>
    (s.map (fun m =>
      if ownedBy message_id user_id m then
        { m with is_deleted := true } else m), true)

end MessageService

/-- MySQL `JSON_CONTAINS(target_ids, '"x"')` on a JSON array of strings:
membership of the string in the array. -/
def jsonContains (ids : List String) (x : String) : Bool :=
  ids.contains x

namespace AnnouncementService

/-- `AnnouncementService.get_by_id` (core/message/service.py lines
349-357): the live announcement with the given id. -/
def get_by_id (s : List Announcement) (announcement_id : String) :
    Option Announcement :=
  s.find? (fun a => a.id == announcement_id && !a.is_deleted)

/-- In-place ORM mutation of the live announcement row with the given id. -/
def updateAnn (s : List Announcement) (aid : String)
    (f : Announcement → Announcement) : List Announcement :=
  s.map (fun a => if a.id == aid && !a.is_deleted then f a else a)

/-- The `or_(*target_conditions)` audience filter built by
`get_user_announcements` (core/message/service.py lines 279-307) and
`get_unread_count` (lines 501-529): global audience, or a
department/role/user JSON-array-contains match against the caller. -/
def targetMatch (a : Announcement) (user_id : String)
    (user_dept_ids user_role_ids : List String) : Bool :=
  a.target_type == "all"
  || user_dept_ids.any (fun dept_id =>
       a.target_type == "dept" && jsonContains a.target_ids dept_id)
  || user_role_ids.any (fun role_id =>
       a.target_type == "role" && jsonContains a.target_ids role_id)
  || (a.target_type == "user" && jsonContains a.target_ids user_id)

/-- The base conditions of `get_user_announcements` (core/message/service.py
lines 272-317): published, not deleted, not expired at `now`, audience
match, and (for `unread_only`) no read record of this user. -/
def visibleTo (reads : List AnnouncementRead) (user_id : String)
    (user_dept_ids user_role_ids : List String) (unread_only : Bool)
    (now : Nat) (a : Announcement) : Bool :=
  a.status == "published" && !a.is_deleted
  && (match a.expire_time with
      | none => true
      | some t => decide (now < t))
  && targetMatch a user_id user_dept_ids user_role_ids
  && (!unread_only
      || !(reads.any (fun r =>
            r.user_id == user_id && r.announcement_id == a.id)))

/-- The `order_by(is_top.desc(), priority.desc(), publish_time.desc())`
comparison (core/message/service.py lines 326-330); a missing
`publish_time` sorts last, as MySQL puts NULLs last in descending order. -/
def annBefore (a b : Announcement) : Bool :=
  if a.is_top != b.is_top then a.is_top
  else if a.priority != b.priority then decide (b.priority < a.priority)
  else
    match a.publish_time, b.publish_time with
    | none, none => true
    | none, some _ => false
    | some _, none => true
    | some x, some y => decide (y ≤ x)

/-- `AnnouncementService.get_user_announcements` (core/message/service.py
lines 259-347): filter by `visibleTo`, count the matches as `total`, sort,
paginate with `offset = (page - 1) * page_size`, and annotate each
returned row with its per-user `is_read` flag (returned here as the
second component of each pair). -/
def get_user_announcements (s : List Announcement)
    (reads : List AnnouncementRead) (user_id : String)
    (user_dept_ids user_role_ids : List String) (page page_size : Nat)
    (unread_only : Bool) (now : Nat) :
    List (Announcement × Bool) × Nat :=
  let matched := s.filter
    (visibleTo reads user_id user_dept_ids user_role_ids unread_only now)
  let total := matched.length
  let items := ((matched.mergeSort annBefore).drop ((page - 1) * page_size)).take page_size
  (items.map (fun a =>
    (a, reads.any (fun r =>
          r.user_id == user_id && r.announcement_id == a.id))), total)

/-- `AnnouncementService.publish` (core/message/service.py lines 424-445):
not-found gives `none`; a non-draft status raises `ValueError` (modelled
as `Except.error`) with the store unchanged; a draft is set to
`published` with `publish_time = now` and the publisher recorded. -/
def publish (s : List Announcement) (announcement_id user_id : String)
    (now : Nat) : List Announcement × Except String (Option Announcement) :=
  match get_by_id s announcement_id with
  | none => (s, Except.ok none)
  | some a =>
    if !(a.status == "draft") then
      (s, Except.error "只能发布草稿状态的公告")
    else
      (updateAnn s announcement_id (fun x =>
        { x with status := "published", publish_time := some now
                 publisher_id := some user_id }),
       Except.ok (some
        { a with status := "published", publish_time := some now
                 publisher_id := some user_id }))

/-- `AnnouncementService.mark_as_read` (core/message/service.py lines
447-482): not-found gives `false`; if no read record of this
(announcement, user) pair exists, one is inserted and the announcement's
`read_count` is set to `(read_count or 0) + 1`; otherwise nothing
changes; both resolved cases report `true`. -/
def mark_as_read (s : List Announcement) (reads : List AnnouncementRead)
    (announcement_id user_id : String) (now : Nat) :
    List Announcement × List AnnouncementRead × Bool :=
  match get_by_id s announcement_id with
  | none => (s, reads, false)
  | some _ =>
    match reads.find? (fun r =>
        r.announcement_id == announcement_id && r.user_id == user_id) with
    | some _ => (s, reads, true)
    | none =>
      let read_record : AnnouncementRead :=
        { announcement_id := announcement_id, user_id := user_id
          read_at := some now }
      (updateAnn s announcement_id (fun x =>
        { x with read_count := some (x.read_count.getD 0 + 1) }),
       reads ++ [read_record], true)

end AnnouncementService

/-! ### Basic lemmas about the store primitives -/

theorem get_by_id_mem {s : List Dept} {rid : String} {d : Dept}
    (h : get_by_id s rid = some d) :
    d ∈ s ∧ d.id = rid ∧ d.is_deleted = false := by
  have hmem := List.mem_of_find?_eq_some h
  have hp := List.find?_some h
  simp only [Bool.and_eq_true, beq_iff_eq, Bool.not_eq_true'] at hp
  exact ⟨hmem, hp.1, hp.2⟩

theorem get_by_id_append_of_some {s : List Dept} {rid : String} {d : Dept}
    (h : get_by_id s rid = some d) (t : List Dept) :
    get_by_id (s ++ t) rid = some d := by
  unfold get_by_id at h ⊢
  rw [List.find?_append, h]
  rfl

theorem get_by_id_updateRow {rid : String} {f : Dept → Dept}
    (hf : ∀ d : Dept, d.id = rid → d.is_deleted = false →
      (f d).id = d.id ∧ (f d).is_deleted = false)
    (s : List Dept) (x : String) :
    get_by_id (updateRow s rid f) x =
      (get_by_id s x).map
        (fun d => if d.id == rid && !d.is_deleted then f d else d) := by
  induction s with
  | nil => rfl
  | cons a s ih =>
    unfold updateRow get_by_id at ih ⊢
    simp only [List.map_cons, List.find?_cons]
    have hkey : ((if (a.id == rid && !a.is_deleted) = true then f a else a).id == x
        && !(if (a.id == rid && !a.is_deleted) = true then f a else a).is_deleted)
        = (a.id == x && !a.is_deleted) := by
      by_cases hc : (a.id == rid && !a.is_deleted) = true
      · have hc' := hc
        simp only [Bool.and_eq_true, beq_iff_eq, Bool.not_eq_true'] at hc'
        obtain ⟨hfid, hfdel⟩ := hf a hc'.1 hc'.2
        simp [hc, hc'.1, hfid, hfdel, hc'.2]
      · simp [hc]
    rw [hkey]
    cases hpa : (a.id == x && !a.is_deleted) with
    | true => simp
    | false => simpa using ih

theorem get_by_id_updateRow_ne {rid : String} {f : Dept → Dept}
    (hf : ∀ d : Dept, d.id = rid → d.is_deleted = false →
      (f d).id = d.id ∧ (f d).is_deleted = false)
    (s : List Dept) (x : String) (hx : x ≠ rid) :
    get_by_id (updateRow s rid f) x = get_by_id s x := by
  rw [get_by_id_updateRow hf s x]
  cases h : get_by_id s x with
  | none => rfl
  | some d =>
    obtain ⟨-, hid, -⟩ := get_by_id_mem h
    simp [hid, hx]

theorem get_by_id_updateRow_self {rid : String} {f : Dept → Dept}
    (hf : ∀ d : Dept, d.id = rid → d.is_deleted = false →
      (f d).id = d.id ∧ (f d).is_deleted = false)
    (s : List Dept) {d : Dept} (h : get_by_id s rid = some d) :
    get_by_id (updateRow s rid f) rid = some (f d) := by
  rw [get_by_id_updateRow hf s rid, h]
  obtain ⟨-, hid, hdel⟩ := get_by_id_mem h
  simp [hid, hdel]

/-! ### The hierarchy consistency invariant (spec section 3, claim C1) -/

/-- Pointwise form of the spec invariant for one department: a root
(`parent_id` null) has `level = 0` and the root path `"/"`; otherwise the
parent resolves to a live row and `level`/`path` are derived from it.
With `level : Nat` this makes `level = 0` hold exactly for roots. -/
def deptConsistent (s : List Dept) (d : Dept) : Bool :=
  d.parent_id.elim (d.level == 0 && d.path == "/")
    (fun p => (get_by_id s p).elim false
      (fun parent =>
        d.level == parent.level + 1 &&
        d.path == parent.path ++ parent.id ++ "/"))

/-- The spec invariant over the whole store: every non-deleted department
is consistent with its `parent_id` chain. -/
def StoreConsistent (s : List Dept) : Bool :=
  s.all (fun d => d.is_deleted || deptConsistent s d)

/-- The requested parent of a `create` call resolves, or is absent: the
precondition under which `create` keeps the store consistent. -/
def parentOk (s : List Dept) (parent_id : Option String) : Bool :=
  parent_id.elim true (fun p => !(p == "") && (get_by_id s p).isSome)

theorem StoreConsistent_iff {s : List Dept} :
    StoreConsistent s = true ↔
      ∀ d ∈ s, d.is_deleted = false → deptConsistent s d = true := by
  unfold StoreConsistent
  rw [List.all_eq_true]
  constructor
  · intro h d hd hdel
    have hx := h d hd
    rwa [hdel, Bool.false_or] at hx
  · intro h d hd
    cases hdel : d.is_deleted with
    | true => simp
    | false => simp [h d hd hdel]

theorem append_slash_ne (a b : String) : a ++ b ++ "/" ≠ "" := by
  intro h
  have hl := congrArg String.length h
  rw [String.length_append, String.length_append] at hl
  have h1 : ("/" : String).length = 1 := rfl
  have h0 : ("" : String).length = 0 := rfl
  rw [h1, h0] at hl
  omega

theorem consistent_path_ne {s : List Dept} {d : Dept}
    (h : deptConsistent s d = true) : d.path ≠ "" := by
  unfold deptConsistent at h
  cases hp : d.parent_id with
  | none =>
    rw [hp] at h
    simp only [Option.elim_none, Bool.and_eq_true, beq_iff_eq] at h
    rw [h.2]
    decide
  | some p =>
    rw [hp] at h
    simp only [Option.elim_some] at h
    cases hg : get_by_id s p with
    | none => rw [hg] at h; exact absurd h (by simp)
    | some parent =>
      rw [hg] at h
      simp only [Option.elim_some, Bool.and_eq_true, beq_iff_eq] at h
      rw [h.2]
      exact append_slash_ne _ _

theorem deptConsistent_append {s t : List Dept} {d : Dept}
    (h : deptConsistent s d = true) : deptConsistent (s ++ t) d = true := by
  unfold deptConsistent at h ⊢
  cases hp : d.parent_id with
  | none =>
    rw [hp] at h
    simpa using h
  | some p =>
    rw [hp] at h
    simp only [Option.elim_some] at h ⊢
    cases hg : get_by_id s p with
    | none => rw [hg] at h; exact absurd h (by simp)
    | some parent =>
      rw [hg] at h
      rw [get_by_id_append_of_some hg t]
      exact h

theorem create_preserves_consistent {s : List Dept} {newId name : String}
    {parent_id : Option String}
    (hs : StoreConsistent s = true) (hp : parentOk s parent_id = true) :
    StoreConsistent (DeptService.create s newId name parent_id).1 = true := by
  have hs' := StoreConsistent_iff.mp hs
  rw [StoreConsistent_iff]
  unfold DeptService.create
  intro d hd hdel
  simp only [List.mem_append, List.mem_singleton] at hd
  cases hd with
  | inl hmem => exact deptConsistent_append (hs' d hmem hdel)
  | inr hnew =>
    subst hnew
    unfold deptConsistent computeHier
    cases hpid : parent_id with
    | none => simp [optTruthy]
    | some p =>
      unfold parentOk at hp
      rw [hpid] at hp
      simp only [Option.elim_some, Bool.and_eq_true, Bool.not_eq_true',
        beq_eq_false_iff_ne, Option.isSome_iff_exists] at hp
      obtain ⟨hpne, parent, hres⟩ := hp
      have htr : optTruthy (some p) = true := by simp [optTruthy, hpne]
      rw [htr]
      simp only [if_true, Option.getD_some, Option.elim_some]
      rw [hres]
      have hparmem := get_by_id_mem hres
      have hparcons := hs' parent hparmem.1 hparmem.2.2
      have hpne' : parent.path ≠ "" := consistent_path_ne hparcons
      rw [get_by_id_append_of_some hres]
      simp [pathOr, hpne']

theorem get_children_isEmpty_iff {s : List Dept} {rid : String} :
    (DeptService.get_children s rid).isEmpty = true ↔
      ∀ d ∈ s, d.is_deleted = false → d.parent_id ≠ some rid := by
  unfold DeptService.get_children
  rw [List.isEmpty_iff, List.filter_eq_nil_iff]
  constructor
  · intro h d hd hdel hpar
    exact h d hd (by simp [hpar, hdel])
  · intro h d hd hcontra
    simp only [Bool.and_eq_true, beq_iff_eq, Bool.not_eq_true'] at hcontra
    exact h d hd hcontra.2 hcontra.1

theorem updateRow_preserves_consistent {s : List Dept} {rid : String}
    {f : Dept → Dept}
    (hs : StoreConsistent s = true)
    (hnc : (DeptService.get_children s rid).isEmpty = true)
    (hf : ∀ d : Dept, d.id = rid → d.is_deleted = false →
      (f d).id = d.id ∧ (f d).is_deleted = false)
    (hfc : ∀ d ∈ s, d.id = rid → d.is_deleted = false →
      deptConsistent (updateRow s rid f) (f d) = true) :
    StoreConsistent (updateRow s rid f) = true := by
  have hs' := StoreConsistent_iff.mp hs
  have hnc' := get_children_isEmpty_iff.mp hnc
  rw [StoreConsistent_iff]
  intro d' hd' hdel'
  unfold updateRow at hd'
  rw [List.mem_map] at hd'
  obtain ⟨d, hd, himg⟩ := hd'
  by_cases hc : (d.id == rid && !d.is_deleted) = true
  · rw [if_pos hc] at himg
    subst himg
    simp only [Bool.and_eq_true, beq_iff_eq, Bool.not_eq_true'] at hc
    exact hfc d hd hc.1 hc.2
  · rw [if_neg hc] at himg
    subst himg
    have hcons := hs' d hd hdel'
    unfold deptConsistent at hcons ⊢
    cases hp : d.parent_id with
    | none =>
      rw [hp] at hcons
      simpa using hcons
    | some p =>
      rw [hp] at hcons
      simp only [Option.elim_some] at hcons ⊢
      have hpne : p ≠ rid := by
        intro hpr
        exact hnc' d hd hdel' (by rw [hp, hpr])
      rw [get_by_id_updateRow_ne hf s p hpne]
      exact hcons

theorem move_preserves_consistent {s : List Dept} {dept_id : String}
    {np : Option String}
    (hs : StoreConsistent s = true)
    (hnc : (DeptService.get_children s dept_id).isEmpty = true)
    (hok : (DeptService.move s dept_id np).2.1 = true) :
    StoreConsistent (DeptService.move s dept_id np).1 = true := by
  unfold DeptService.move at hok ⊢
  revert hok
  cases hd : get_by_id s dept_id with
  | none =>
    dsimp only
    intro hok
    exact absurd hok (by simp)
  | some dept =>
    dsimp only
    by_cases ht : optTruthy np = true
    · rw [if_pos ht]
      by_cases hself : (np.getD "" == dept_id) = true
      · rw [if_pos hself]
        intro hok
        exact absurd hok (by simp)
      · rw [if_neg hself]
        cases hpar : get_by_id s (np.getD "") with
        | none =>
          dsimp only
          intro hok
          exact absurd hok (by simp)
        | some new_parent =>
          dsimp only
          by_cases hanc :
              ((List.map (fun a => a.id)
                  (DeptService.get_ancestors s (np.getD ""))).contains dept.id
                || dept.id == new_parent.id) = true
          · rw [if_pos hanc]
            intro hok
            exact absurd hok (by simp)
          · rw [if_neg hanc]
            intro _
            have hfp : ∀ d : Dept, d.id = dept_id → d.is_deleted = false →
                (({ d with
                    parent_id := some (np.getD ""),
                    level := new_parent.level + 1,
                    path := pathOr new_parent.path ++ new_parent.id ++ "/" } : Dept)).id = d.id ∧
                (({ d with
                    parent_id := some (np.getD ""),
                    level := new_parent.level + 1,
                    path := pathOr new_parent.path ++ new_parent.id ++ "/" } : Dept)).is_deleted = false := by
              intro d _ hdel
              exact ⟨rfl, hdel⟩
            apply updateRow_preserves_consistent hs hnc hfp
            intro d hdmem hid hdel
            unfold deptConsistent
            simp only [Option.elim_some]
            have hne : np.getD "" ≠ dept_id := by
              simpa using hself
            rw [get_by_id_updateRow_ne hfp s _ hne, hpar]
            simp only [Option.elim_some]
            have hparmem := get_by_id_mem hpar
            have hparcons :=
              StoreConsistent_iff.mp hs new_parent hparmem.1 hparmem.2.2
            have hppne : new_parent.path ≠ "" := consistent_path_ne hparcons
            simp [pathOr, hppne]
    · rw [if_neg ht]
      intro _
      have hfp : ∀ d : Dept, d.id = dept_id → d.is_deleted = false →
          (({ d with
              parent_id := (none : Option String),
              level := 0,
              path := "/" } : Dept)).id = d.id ∧
          (({ d with
              parent_id := (none : Option String),
              level := 0,
              path := "/" } : Dept)).is_deleted = false := by
        intro d _ hdel
        exact ⟨rfl, hdel⟩
      apply updateRow_preserves_consistent hs hnc hfp
      intro d hdmem hid hdel
      unfold deptConsistent
      simp

theorem consistent_parent_level {s : List Dept} {current parent : Dept}
    (hs : StoreConsistent s = true) (hcur : current ∈ s)
    (hdel : current.is_deleted = false)
    (hg : get_by_id s (current.parent_id.getD "") = some parent)
    (ht : optTruthy current.parent_id = true) :
    current.level = parent.level + 1 := by
  have hc := StoreConsistent_iff.mp hs current hcur hdel
  unfold deptConsistent at hc
  cases hp : current.parent_id with
  | none => rw [hp] at ht; exact absurd ht (by simp [optTruthy])
  | some p =>
    rw [hp] at hc hg
    simp only [Option.getD_some] at hg
    simp only [Option.elim_some] at hc
    rw [hg] at hc
    simp only [Option.elim_some, Bool.and_eq_true, beq_iff_eq] at hc
    exact hc.1

theorem ancestorsAux_spec {s : List Dept} (hs : StoreConsistent s = true) :
    ∀ (fuel : Nat) (current : Dept), current ∈ s →
      current.is_deleted = false →
      ∀ a ∈ DeptService.ancestorsAux s fuel current,
        get_by_id s a.id = some a ∧ a.level < current.level := by
  intro fuel
  induction fuel with
  | zero =>
    intro current _ _ a ha
    simp [DeptService.ancestorsAux] at ha
  | succ n ih =>
    intro current hcur hdel a ha
    unfold DeptService.ancestorsAux at ha
    by_cases ht : optTruthy current.parent_id = true
    · rw [if_pos ht] at ha
      revert ha
      cases hg : get_by_id s (current.parent_id.getD "") with
      | none =>
        intro ha
        simp at ha
      | some parent =>
        intro ha
        have hlvl := consistent_parent_level hs hcur hdel hg ht
        obtain ⟨hpmem, hpid, hpdel⟩ := get_by_id_mem hg
        rcases List.mem_cons.mp ha with rfl | hrest
        · constructor
          · rw [hpid]
            exact hg
          · omega
        · obtain ⟨h1, h2⟩ := ih parent hpmem hpdel a hrest
          exact ⟨h1, by omega⟩
    · rw [if_neg ht] at ha
      simp at ha

theorem no_self_ancestor {s : List Dept} (hs : StoreConsistent s = true)
    (x : String) :
    x ∉ (DeptService.get_ancestors s x).map (fun a => a.id) := by
  unfold DeptService.get_ancestors
  cases hg : get_by_id s x with
  | none => simp
  | some current =>
    intro hmem
    rw [List.mem_map] at hmem
    obtain ⟨a, ha, hid⟩ := hmem
    obtain ⟨hcm, hcid, hcdel⟩ := get_by_id_mem hg
    obtain ⟨hga, hlt⟩ := ancestorsAux_spec hs s.length current hcm hcdel a ha
    rw [hid, hg] at hga
    have hca : current = a := by injection hga
    rw [hca] at hlt
    exact lt_irrefl _ hlt

theorem consistent_level_zero_iff {s : List Dept}
    (hs : StoreConsistent s = true) {d : Dept} (hd : d ∈ s)
    (hdel : d.is_deleted = false) :
    d.level = 0 ↔ d.parent_id = none := by
  have hc := StoreConsistent_iff.mp hs d hd hdel
  unfold deptConsistent at hc
  cases hp : d.parent_id with
  | none =>
    rw [hp] at hc
    simp only [Option.elim_none, Bool.and_eq_true, beq_iff_eq] at hc
    exact ⟨fun _ => rfl, fun _ => hc.1⟩
  | some p =>
    rw [hp] at hc
    simp only [Option.elim_some] at hc
    constructor
    · intro h0
      revert hc
      cases hg : get_by_id s p with
      | none => intro hc; simp at hc
      | some parent =>
        intro hc
        simp only [Option.elim_some, Bool.and_eq_true, beq_iff_eq] at hc
        omega
    · intro h
      exact absurd h (by simp)

/-! ### Claim theorems -/

/-- Demonstration store for claim C1: root `R`, child `C` of `R`, and a
second root `B`, built through `DeptService.create` only. -/
def cexC1store : List Dept :=
  (DeptService.create
    ((DeptService.create
      ((DeptService.create [] "R" "r" none).1) "C" "c" (some "R")).1)
    "B" "b" none).1

/-- Claim C1 as frozen is false: the level/path invariant is not preserved
by every sequence of create/update/move operations.  Moving a department
that has a live child updates only the moved row, leaving the child's
`level`/`path` stale (first conjunct: the pre-move store built by three
creates is consistent, the move of `R` under `B` succeeds, and the store
afterwards violates the invariant because child `C` keeps `level 1`,
`path "/R/"`).  Also, `update` applies no cycle guard: updating `A`'s
`parent_id` to `A` itself yields a self-parented, inconsistent row
(second conjunct). -/
theorem claim_C1_counterexample :
    (StoreConsistent cexC1store = true
      ∧ (DeptService.move cexC1store "R" (some "B")).2.1 = true
      ∧ StoreConsistent (DeptService.move cexC1store "R" (some "B")).1 = false)
    ∧ StoreConsistent
        (DeptService.update ((DeptService.create [] "A" "a" none).1) "A"
          { parent_id := some (some "A") }).1 = false := by
  decide

/-- Claim C1 (amended): on stores satisfying the invariant `StoreConsistent`
(each live department is a root with `level 0`/path `"/"` or has
`level = parent.level + 1` and `path = parent.path + parent.id + "/"` for
its resolved live parent), (1) `create` with an absent or resolving
`parent_id` preserves the invariant, (2) a successful `move` of a
department with no live direct children preserves it, (3) the invariant
entails the spec's phrasing `level == 0` iff `parent_id` null, and (4) the
invariant entails acyclicity: no department id occurs in its own ancestor
chain. -/
theorem claim_C1 :
    (∀ (s : List Dept) (newId name : String) (parent_id : Option String),
        StoreConsistent s = true → parentOk s parent_id = true →
        StoreConsistent (DeptService.create s newId name parent_id).1 = true)
    ∧ (∀ (s : List Dept) (dept_id : String) (np : Option String),
        StoreConsistent s = true →
        (DeptService.get_children s dept_id).isEmpty = true →
        (DeptService.move s dept_id np).2.1 = true →
        StoreConsistent (DeptService.move s dept_id np).1 = true)
    ∧ (∀ s : List Dept, StoreConsistent s = true →
        ∀ d ∈ s, d.is_deleted = false → (d.level = 0 ↔ d.parent_id = none))
    ∧ (∀ (s : List Dept) (x : String), StoreConsistent s = true →
        x ∉ (DeptService.get_ancestors s x).map (fun a => a.id)) := by
  refine ⟨?_, ?_, ?_, ?_⟩
  · intro s newId name parent_id hs hp
    exact create_preserves_consistent hs hp
  · intro s dept_id np hs hnc hok
    exact move_preserves_consistent hs hnc hok
  · intro s hs d hd hdel
    exact consistent_level_zero_iff hs hd hdel
  · intro s x hs
    exact no_self_ancestor hs x

/-- Witness for claim C1 at concrete inputs: creating a root in the empty
store keeps consistency, a root-move of that department succeeds and keeps
consistency, the level-zero characterisation holds for the created row,
and the created row is not its own ancestor. -/
theorem claim_C1_witness :
    (StoreConsistent (DeptService.create [] "W" "w" none).1 = true)
    ∧ (StoreConsistent
        (DeptService.move ((DeptService.create [] "W" "w" none).1) "W" none).1 = true)
    ∧ (((DeptService.create [] "W" "w" none).2.level = 0)
        ↔ ((DeptService.create [] "W" "w" none).2.parent_id = none))
    ∧ ("W" ∉ (DeptService.get_ancestors ((DeptService.create [] "W" "w" none).1) "W").map
        (fun a => a.id)) := by
  refine ⟨?_, ?_, ?_, ?_⟩
  · exact claim_C1.1 [] "W" "w" none (by decide) (by decide)
  · exact claim_C1.2.1 ((DeptService.create [] "W" "w" none).1) "W" none
      (claim_C1.1 [] "W" "w" none (by decide) (by decide)) (by decide) (by decide)
  · exact claim_C1.2.2.1 ((DeptService.create [] "W" "w" none).1)
      (claim_C1.1 [] "W" "w" none (by decide) (by decide))
      ((DeptService.create [] "W" "w" none).2) (by decide) (by decide)
  · exact claim_C1.2.2.2 ((DeptService.create [] "W" "w" none).1) "W"
      (claim_C1.1 [] "W" "w" none (by decide) (by decide))

/-- Shared demonstration store: root `R` with child `C` and grandchild `G`
(the worked example of spec section 8), built through `create` only. -/
def demoStore : List Dept :=
  (DeptService.create
    ((DeptService.create
      ((DeptService.create [] "R" "r" none).1) "C" "c" (some "R")).1)
    "G" "g" (some "C")).1

/-- Claim C3: `create` sets `level = parent.level + 1` and
`path = parent.path + parent.id + "/"` when `parent_id` resolves to an
existing department, and `level = 0`, `path = "/"` both when `parent_id`
is absent (falsy) and when it is given but unresolved; in every case the
row is inserted (the unresolved case is silently treated as a root, never
an error).  Stated for stores whose live rows have non-empty `path`, which
makes `parent.path or '/'` equal to `parent.path`. -/
theorem claim_C3 :
    ∀ (s : List Dept) (newId name : String) (parent_id : Option String),
      (∀ d ∈ s, d.is_deleted = false → d.path ≠ "") →
      ((∀ P : Dept, optTruthy parent_id = true →
          get_by_id s (parent_id.getD "") = some P →
          (DeptService.create s newId name parent_id).2.level = P.level + 1
            ∧ (DeptService.create s newId name parent_id).2.path
              = P.path ++ P.id ++ "/")
        ∧ ((optTruthy parent_id = false
              ∨ get_by_id s (parent_id.getD "") = none) →
            (DeptService.create s newId name parent_id).2.level = 0
              ∧ (DeptService.create s newId name parent_id).2.path = "/")
        ∧ (DeptService.create s newId name parent_id).1
            = s ++ [(DeptService.create s newId name parent_id).2]) := by
  intro s newId name parent_id hpaths
  refine ⟨?_, ?_, rfl⟩
  · intro P ht hres
    have hPmem := get_by_id_mem hres
    have hPpath : P.path ≠ "" := hpaths P hPmem.1 hPmem.2.2
    unfold DeptService.create computeHier
    rw [if_pos ht, hres]
    dsimp only
    exact ⟨rfl, by simp [pathOr, hPpath]⟩
  · intro hcase
    unfold DeptService.create computeHier
    by_cases ht : optTruthy parent_id = true
    · cases hcase with
      | inl hf => rw [hf] at ht; exact absurd ht (by simp)
      | inr hnone =>
        rw [if_pos ht, hnone]
        exact ⟨rfl, rfl⟩
    · rw [if_neg ht]
      exact ⟨rfl, rfl⟩

/-- Witness for claim C3: creating `Q` under the resolved parent `P` gives
`level = P.level + 1 = 1` and `path = "/P/"`; creating `Z` under an id
that resolves to nothing gives root values. -/
theorem claim_C3_witness :
    ((DeptService.create ((DeptService.create [] "P" "p" none).1)
        "Q" "q" (some "P")).2.level
      = (DeptService.create [] "P" "p" none).2.level + 1
      ∧ (DeptService.create ((DeptService.create [] "P" "p" none).1)
          "Q" "q" (some "P")).2.path
        = (DeptService.create [] "P" "p" none).2.path
          ++ (DeptService.create [] "P" "p" none).2.id ++ "/")
    ∧ ((DeptService.create [] "Z" "z" (some "missing")).2.level = 0
      ∧ (DeptService.create [] "Z" "z" (some "missing")).2.path = "/") := by
  constructor
  · exact (claim_C3 ((DeptService.create [] "P" "p" none).1) "Q" "q" (some "P")
      (by decide)).1 ((DeptService.create [] "P" "p" none).2) (by decide) (by decide)
  · exact (claim_C3 [] "Z" "z" (some "missing") (by decide)).2.1
      (Or.inr (by decide))

/-- Claim C2: `move(A, B)` fails with the store unchanged exactly when A
does not resolve, B is non-empty and equals A, B is non-empty and does not
resolve, or A's id appears in B's ancestor chain; in every other case it
reports success and sets A's `parent_id`/`level`/`path` from B (root
values when B is empty).  Stated for stores whose live rows have non-empty
`path`. -/
theorem claim_C2 :
    ∀ (s : List Dept) (dept_id : String) (np : Option String),
      (∀ d ∈ s, d.is_deleted = false → d.path ≠ "") →
      (((DeptService.move s dept_id np).2.1 = false ↔
          (get_by_id s dept_id = none
            ∨ (optTruthy np = true
                ∧ (np.getD "" = dept_id
                    ∨ get_by_id s (np.getD "") = none
                    ∨ dept_id ∈ (DeptService.get_ancestors s (np.getD "")).map
                        (fun a => a.id)))))
        ∧ ((DeptService.move s dept_id np).2.1 = false →
            (DeptService.move s dept_id np).1 = s)
        ∧ (∀ dept : Dept, get_by_id s dept_id = some dept →
            (DeptService.move s dept_id np).2.1 = true →
            ((optTruthy np = false →
                get_by_id (DeptService.move s dept_id np).1 dept_id
                  = some { dept with parent_id := none, level := 0, path := "/" })
              ∧ (∀ P : Dept, optTruthy np = true →
                  get_by_id s (np.getD "") = some P →
                  get_by_id (DeptService.move s dept_id np).1 dept_id
                    = some { dept with
                             parent_id := some (np.getD ""),
                             level := P.level + 1,
                             path := P.path ++ P.id ++ "/" })))) := by
  intro s dept_id np hpaths
  unfold DeptService.move
  cases hd : get_by_id s dept_id with
  | none =>
    dsimp only
    refine ⟨Iff.intro (fun _ => Or.inl rfl) (fun _ => rfl), fun _ => rfl, ?_⟩
    intro dept hdept
    exact absurd hdept (by simp)
  | some dept =>
    dsimp only
    obtain ⟨hdmem, hdid, hddel⟩ := get_by_id_mem hd
    by_cases ht : optTruthy np = true
    · rw [if_pos ht]
      by_cases hself : (np.getD "" == dept_id) = true
      · rw [if_pos hself]
        dsimp only
        refine ⟨Iff.intro (fun _ => Or.inr ⟨ht, Or.inl (by simpa using hself)⟩)
          (fun _ => rfl), fun _ => rfl, ?_⟩
        intro dept' _ hok
        exact absurd hok (by simp)
      · rw [if_neg hself]
        cases hpar : get_by_id s (np.getD "") with
        | none =>
          dsimp only
          refine ⟨Iff.intro (fun _ => Or.inr ⟨ht, Or.inr (Or.inl rfl)⟩)
            (fun _ => rfl), fun _ => rfl, ?_⟩
          intro dept' _ hok
          exact absurd hok (by simp)
        | some new_parent =>
          dsimp only
          obtain ⟨hpmem, hpid, hpdel⟩ := get_by_id_mem hpar
          by_cases hanc :
              ((List.map (fun a => a.id)
                  (DeptService.get_ancestors s (np.getD ""))).contains dept.id
                || dept.id == new_parent.id) = true
          · rw [if_pos hanc]
            dsimp only
            have hmem : dept_id ∈ (DeptService.get_ancestors s (np.getD "")).map
                (fun a => a.id) := by
              simp only [Bool.or_eq_true, beq_iff_eq] at hanc
              cases hanc with
              | inl hcont =>
                rw [← hdid]
                exact List.elem_iff.mp hcont
              | inr heq =>
                exfalso
                apply hself
                rw [← hpid, ← heq, hdid]
                simp
            refine ⟨Iff.intro (fun _ => Or.inr ⟨ht, Or.inr (Or.inr hmem)⟩)
              (fun _ => rfl), fun _ => rfl, ?_⟩
            intro dept' _ hok
            exact absurd hok (by simp)
          · rw [if_neg hanc]
            dsimp only
            have hfp : ∀ d : Dept, d.id = dept_id → d.is_deleted = false →
                (({ d with
                    parent_id := some (np.getD ""),
                    level := new_parent.level + 1,
                    path := pathOr new_parent.path ++ new_parent.id ++ "/" } : Dept)).id = d.id ∧
                (({ d with
                    parent_id := some (np.getD ""),
                    level := new_parent.level + 1,
                    path := pathOr new_parent.path ++ new_parent.id ++ "/" } : Dept)).is_deleted = false := by
              intro d _ hdel
              exact ⟨rfl, hdel⟩
            refine ⟨Iff.intro (fun hfalse => absurd hfalse (by simp)) ?_,
              fun hfalse => absurd hfalse (by simp), ?_⟩
            · intro hrhs
              exfalso
              cases hrhs with
              | inl hnone => exact absurd hnone (by simp)
              | inr hr =>
                cases hr.2 with
                | inl heq => exact hself (by simp [heq])
                | inr hr2 =>
                  cases hr2 with
                  | inl hnone => exact absurd hnone (by simp)
                  | inr hmem =>
                    simp only [Bool.or_eq_true, not_or] at hanc
                    apply hanc.1
                    rw [hdid]
                    exact List.elem_iff.mpr hmem
            · intro dept' hdept' _
              have hdd : dept' = dept := by
                injection hdept' with h
                exact h.symm
              subst hdd
              constructor
              · intro hcontra
                rw [hcontra] at ht
                exact absurd ht (by simp)
              · intro P _ hres
                have hPP : P = new_parent := by
                  injection hres with h
                  exact h.symm
                subst hPP
                have hppne : P.path ≠ "" := hpaths P hpmem hpdel
                have hupd := get_by_id_updateRow_self hfp s hd
                rw [hupd]
                simp [pathOr, hppne]
    · rw [if_neg ht]
      dsimp only
      have hfp : ∀ d : Dept, d.id = dept_id → d.is_deleted = false →
          (({ d with
              parent_id := (none : Option String),
              level := 0,
              path := "/" } : Dept)).id = d.id ∧
          (({ d with
              parent_id := (none : Option String),
              level := 0,
              path := "/" } : Dept)).is_deleted = false := by
        intro d _ hdel
        exact ⟨rfl, hdel⟩
      refine ⟨Iff.intro (fun hfalse => absurd hfalse (by simp)) ?_,
        fun hfalse => absurd hfalse (by simp), ?_⟩
      · intro hrhs
        exfalso
        cases hrhs with
        | inl hnone => exact absurd hnone (by simp)
        | inr hr => exact ht hr.1
      · intro dept' hdept' _
        have hdd : dept' = dept := by
          injection hdept' with h
          exact h.symm
        subst hdd
        refine ⟨fun _ => ?_, fun P htr _ => absurd htr ht⟩
        exact get_by_id_updateRow_self hfp s hd

/-- Witness for claim C2 on the spec's worked example: `move(R, G)` fails
(G is a descendant of R) with the store unchanged, and `move(G, R)`
succeeds, setting G's `parent_id`/`level`/`path` from R. -/
theorem claim_C2_witness :
    ((DeptService.move demoStore "R" (some "G")).2.1 = false
      ∧ (DeptService.move demoStore "R" (some "G")).1 = demoStore)
    ∧ get_by_id (DeptService.move demoStore "G" (some "R")).1 "G"
        = some { id := "G", name := "g", parent_id := some "R", level := 0 + 1,
                 path := "/" ++ "R" ++ "/", is_deleted := false } := by
  refine ⟨⟨?_, ?_⟩, ?_⟩
  · exact (claim_C2 demoStore "R" (some "G") (by decide)).1.mpr
      (Or.inr ⟨by decide, Or.inr (Or.inr (by decide))⟩)
  · exact (claim_C2 demoStore "R" (some "G") (by decide)).2.1
      ((claim_C2 demoStore "R" (some "G") (by decide)).1.mpr
        (Or.inr ⟨by decide, Or.inr (Or.inr (by decide))⟩))
  · exact ((claim_C2 demoStore "G" (some "R") (by decide)).2.2
      { id := "G", name := "g", parent_id := some "C", level := 2,
        path := "/R/C/", is_deleted := false }
      (by decide) (by decide)).2
      { id := "R", name := "r", parent_id := none, level := 0,
        path := "/", is_deleted := false }
      (by decide) (by decide)

/-! ### LIKE-pattern lemmas (claim C4) -/

/-- The trailing `%` of the descendant pattern matches any remaining
string. -/
theorem likeMatch_percent_all : ∀ cs : List Char, likeMatch ['%'] cs = true := by
  intro cs
  induction cs with
  | nil => simp [likeMatch]
  | cons c cs' ih =>
    show likeMatch ['%'] (c :: cs') = true
    simp [likeMatch, ih]

/-- A pattern with no `%`/`_` wildcard followed by a single trailing `%`
matches exactly the strings having the pattern as a prefix. -/
theorem likeMatch_plain_pattern (p : List Char)
    (hp : ∀ c ∈ p, (c == '%') = false ∧ (c == '_') = false) :
    ∀ cs : List Char, likeMatch (p ++ ['%']) cs = p.isPrefixOf cs := by
  induction p with
  | nil =>
    intro cs
    rw [List.nil_append, likeMatch_percent_all]
    simp [List.isPrefixOf]
  | cons a ps ih =>
    intro cs
    have ha := hp a (List.mem_cons_self a ps)
    have hps : ∀ c ∈ ps, (c == '%') = false ∧ (c == '_') = false :=
      fun c hc => hp c (List.mem_cons_of_mem a hc)
    cases cs with
    | nil => simp [likeMatch, ha.1, List.isPrefixOf]
    | cons c cs' =>
      rw [List.cons_append]
      simp only [likeMatch, ha.1, Bool.false_eq_true, if_false,
        ha.2, Bool.false_or, List.isPrefixOf_cons₂]
      rw [ih hps cs']

/-- No SQL `LIKE` wildcard character occurs in the string: the soundness
condition under which the descendant query's `LIKE` pattern is a plain
prefix test. -/
def noWildcards (x : String) : Bool :=
  x.data.all (fun c => !(c == '%') && !(c == '_'))

/-- Demonstration store for claim C4: roots `a_b` and `azb` plus a child
`c` of `azb`, built through `create` only.  The id `a_b` contains the SQL
`LIKE` single-character wildcard `_`. -/
def cexC4store : List Dept :=
  (DeptService.create
    ((DeptService.create
      ((DeptService.create [] "a_b" "A" none).1) "azb" "B" none).1)
    "c" "C" (some "azb")).1

/-- Claim C4 as frozen is false: `get_descendants` filters with
`path LIKE search_path + "%"`, and `_`/`%` in the department's own id or
path act as wildcards.  In a store reachable by three `create` calls,
`get_descendants` of the root `a_b` returns the department whose path is
`"/azb/"`, which does not start with `"/a_b/"`. -/
theorem claim_C4_counterexample :
    (DeptService.get_descendants cexC4store "a_b").map (fun d => d.path)
        = ["/azb/"]
      ∧ List.isPrefixOf ("/a_b/" : String).data ("/azb/" : String).data
        = false := by
  decide

/-- Claim C4 (amended): for an unresolved `dept_id` `get_descendants`
returns the empty list; and when the department's `path + id + "/"`
contains no `LIKE` wildcard (`%` or `_`), `get_descendants` returns
exactly the non-deleted departments whose `path` starts with
`path + id + "/"`, at any tree depth. -/
theorem claim_C4 :
    ∀ (s : List Dept) (dept_id : String),
      (get_by_id s dept_id = none →
        DeptService.get_descendants s dept_id = [])
      ∧ (∀ dept : Dept, get_by_id s dept_id = some dept →
          dept.path ≠ "" →
          noWildcards (dept.path ++ dept.id ++ "/") = true →
          ∀ d : Dept,
            d ∈ DeptService.get_descendants s dept_id ↔
              (d ∈ s ∧ d.is_deleted = false
                ∧ List.isPrefixOf (dept.path ++ dept.id ++ "/").data
                    d.path.data = true)) := by
  intro s dept_id
  constructor
  · intro hnone
    unfold DeptService.get_descendants
    rw [hnone]
  · intro dept hres hpne hnw d
    have hpOr : pathOr dept.path = dept.path := by simp [pathOr, hpne]
    have hdata : ((dept.path ++ dept.id ++ "/") ++ "%").data
        = (dept.path ++ dept.id ++ "/").data ++ ['%'] := by
      rw [String.data_append]
    have hp : ∀ c ∈ (dept.path ++ dept.id ++ "/").data,
        (c == '%') = false ∧ (c == '_') = false := by
      intro c hc
      unfold noWildcards at hnw
      have hcw := List.all_eq_true.mp hnw c hc
      simp only [Bool.and_eq_true, Bool.not_eq_true'] at hcw
      exact hcw
    unfold DeptService.get_descendants
    rw [hres]
    dsimp only
    rw [List.mem_filter, hpOr]
    unfold sqlLike
    rw [hdata, likeMatch_plain_pattern _ hp]
    simp only [Bool.and_eq_true, Bool.not_eq_true']
    constructor
    · intro h
      exact ⟨h.1, h.2.2, h.2.1⟩
    · intro h
      exact ⟨h.1, h.2.2, h.2.1⟩

/-- Witness for claim C4 on the worked example: the grandchild `G` (path
`"/R/C/"`) is a descendant of `R` because its path starts with `"/R/"`,
and an id that resolves to nothing yields the empty list. -/
theorem claim_C4_witness :
    ({ id := "G", name := "g", parent_id := some "C", level := 2,
       path := "/R/C/", is_deleted := false } : Dept)
        ∈ DeptService.get_descendants demoStore "R"
      ∧ DeptService.get_descendants demoStore "missing" = [] := by
  constructor
  · exact ((claim_C4 demoStore "R").2
      { id := "R", name := "r", parent_id := none, level := 0,
        path := "/", is_deleted := false }
      (by decide) (by decide) (by decide)
      { id := "G", name := "g", parent_id := some "C", level := 2,
        path := "/R/C/", is_deleted := false }).mpr
      (by refine ⟨by decide, rfl, by decide⟩)
  · exact (claim_C4 demoStore "missing").1 (by decide)

/-! ### Deletion lemmas (claim C5) -/

theorem can_delete_false_iff {s : List Dept} {dept_id : String} :
    (DeptService.can_delete s dept_id).1 = false ↔
      ∃ d ∈ s, d.is_deleted = false ∧ d.parent_id = some dept_id := by
  unfold DeptService.can_delete DeptService.get_children
  by_cases he : (s.filter
      (fun d => d.parent_id == some dept_id && !d.is_deleted)).isEmpty = true
  · rw [if_neg (by simp [he])]
    simp only [List.isEmpty_iff, List.filter_eq_nil_iff] at he
    constructor
    · intro h
      exact absurd h (by simp)
    · rintro ⟨d, hd, hdel, hpar⟩
      exact absurd (by simp [hpar, hdel] : (d.parent_id == some dept_id
        && !d.is_deleted) = true) (he d hd)
  · rw [if_pos (by simp [Bool.not_eq_true] at he ⊢; exact he)]
    constructor
    · intro _
      rw [Bool.not_eq_true, List.isEmpty_eq_false_iff_exists_mem] at he
      obtain ⟨d, hd⟩ := he
      rw [List.mem_filter] at hd
      refine ⟨d, hd.1, ?_, ?_⟩
      · have := hd.2
        simp only [Bool.and_eq_true, Bool.not_eq_true'] at this
        exact this.2
      · have := hd.2
        simp only [Bool.and_eq_true, beq_iff_eq] at this
        exact this.1
    · intro _
      rfl

theorem get_by_id_baseDelete_self {s : List Dept} {dept_id : String}
    {hard : Bool} (hsome : (get_by_id s dept_id).isSome = true) :
    get_by_id (DeptService.baseDelete s dept_id hard).1 dept_id = none := by
  rw [Option.isSome_iff_exists] at hsome
  obtain ⟨d0, hd0⟩ := hsome
  unfold DeptService.baseDelete
  rw [hd0]
  dsimp only
  cases hard with
  | true =>
    rw [if_pos rfl]
    unfold get_by_id
    rw [List.find?_eq_none]
    intro x hx
    rw [List.mem_filter] at hx
    have := hx.2
    simp only [Bool.not_eq_true'] at this
    simp [this]
  | false =>
    rw [if_neg (by simp)]
    unfold get_by_id updateRow
    rw [List.find?_eq_none]
    intro x hx
    rw [List.mem_map] at hx
    obtain ⟨d, hd, himg⟩ := hx
    by_cases hc : (d.id == dept_id && !d.is_deleted) = true
    · rw [if_pos hc] at himg
      subst himg
      simp
    · rw [if_neg hc] at himg
      subst himg
      simpa using hc

theorem baseDelete_snd_of_some {s : List Dept} {dept_id : String}
    {hard : Bool} (hsome : (get_by_id s dept_id).isSome = true) :
    (DeptService.baseDelete s dept_id hard).2 = true := by
  rw [Option.isSome_iff_exists] at hsome
  obtain ⟨d0, hd0⟩ := hsome
  unfold DeptService.baseDelete
  rw [hd0]
  dsimp only
  cases hard with
  | true => rw [if_pos rfl]
  | false => rw [if_neg (by simp)]

theorem batch_delete_cons (s : List Dept) (dept_id : String)
    (rest : List String) (hard : Bool) :
    DeptService.batch_delete s (dept_id :: rest) hard
      = (if (DeptService.can_delete s dept_id).1 = true then
          (if (DeptService.baseDelete s dept_id hard).2 = true then
            ((DeptService.batch_delete
                (DeptService.baseDelete s dept_id hard).1 rest hard).1,
             (DeptService.batch_delete
                (DeptService.baseDelete s dept_id hard).1 rest hard).2.1 + 1,
             (DeptService.batch_delete
                (DeptService.baseDelete s dept_id hard).1 rest hard).2.2)
          else
            ((DeptService.batch_delete
                (DeptService.baseDelete s dept_id hard).1 rest hard).1,
             (DeptService.batch_delete
                (DeptService.baseDelete s dept_id hard).1 rest hard).2.1,
             dept_id :: (DeptService.batch_delete
                (DeptService.baseDelete s dept_id hard).1 rest hard).2.2))
        else
          ((DeptService.batch_delete s rest hard).1,
           (DeptService.batch_delete s rest hard).2.1,
           dept_id :: (DeptService.batch_delete s rest hard).2.2)) := rfl

/-- Claim C5: `can_delete` answers not-allowed, with a non-empty reason,
exactly when the department has a non-deleted direct child (user occupancy
is never checked); in `batch_delete`, an id with a live direct child is
appended to `failed_ids` with the store untouched at that step, while an
id that resolves and has no live child is deleted (it no longer resolves
afterwards) and counted in `success_count`. -/
theorem claim_C5 :
    (∀ (s : List Dept) (dept_id : String),
        ((DeptService.can_delete s dept_id).1 = false ↔
          ∃ d ∈ s, d.is_deleted = false ∧ d.parent_id = some dept_id)
        ∧ ((DeptService.can_delete s dept_id).1 = false →
            (DeptService.can_delete s dept_id).2 ≠ ""))
    ∧ (∀ (s : List Dept) (dept_id : String) (rest : List String) (hard : Bool),
        (∃ d ∈ s, d.is_deleted = false ∧ d.parent_id = some dept_id) →
        DeptService.batch_delete s (dept_id :: rest) hard
          = ((DeptService.batch_delete s rest hard).1,
             (DeptService.batch_delete s rest hard).2.1,
             dept_id :: (DeptService.batch_delete s rest hard).2.2))
    ∧ (∀ (s : List Dept) (dept_id : String) (rest : List String) (hard : Bool),
        (¬∃ d ∈ s, d.is_deleted = false ∧ d.parent_id = some dept_id) →
        (get_by_id s dept_id).isSome = true →
        (get_by_id (DeptService.baseDelete s dept_id hard).1 dept_id = none
          ∧ DeptService.batch_delete s (dept_id :: rest) hard
            = ((DeptService.batch_delete
                  (DeptService.baseDelete s dept_id hard).1 rest hard).1,
               (DeptService.batch_delete
                  (DeptService.baseDelete s dept_id hard).1 rest hard).2.1 + 1,
               (DeptService.batch_delete
                  (DeptService.baseDelete s dept_id hard).1 rest hard).2.2))) := by
  refine ⟨?_, ?_, ?_⟩
  · intro s dept_id
    refine ⟨can_delete_false_iff, ?_⟩
    intro hfalse
    unfold DeptService.can_delete at hfalse ⊢
    by_cases he : (DeptService.get_children s dept_id).isEmpty = true
    · rw [if_neg (by simp [he])] at hfalse
      exact absurd hfalse (by simp)
    · rw [if_pos (by simp [Bool.not_eq_true] at he ⊢; exact he)]
      decide
  · intro s dept_id rest hard hchild
    have hcd : (DeptService.can_delete s dept_id).1 = false :=
      can_delete_false_iff.mpr hchild
    rw [batch_delete_cons, if_neg (by simp [hcd])]
  · intro s dept_id rest hard hnochild hsome
    refine ⟨get_by_id_baseDelete_self hsome, ?_⟩
    have hcd : (DeptService.can_delete s dept_id).1 = true := by
      cases hv : (DeptService.can_delete s dept_id).1 with
      | true => rfl
      | false => exact absurd (can_delete_false_iff.mp hv) hnochild
    rw [batch_delete_cons, if_pos hcd, if_pos (baseDelete_snd_of_some hsome)]

/-- Witness for claim C5 on the worked example: `R` has the live child
`C`, so `can_delete` refuses it and a batch containing `R` reports it in
`failed_ids` with the store untouched; the leaf `G` resolves and has no
child, so a batch containing `G` soft-deletes it (it no longer resolves)
and counts it. -/
theorem claim_C5_witness :
    ((DeptService.can_delete demoStore "R").1 = false)
    ∧ (DeptService.batch_delete demoStore ["R"] false
        = ((DeptService.batch_delete demoStore [] false).1,
           (DeptService.batch_delete demoStore [] false).2.1,
           "R" :: (DeptService.batch_delete demoStore [] false).2.2))
    ∧ (get_by_id (DeptService.baseDelete demoStore "G" false).1 "G" = none
        ∧ DeptService.batch_delete demoStore ["G"] false
          = ((DeptService.batch_delete
                (DeptService.baseDelete demoStore "G" false).1 [] false).1,
             (DeptService.batch_delete
                (DeptService.baseDelete demoStore "G" false).1 [] false).2.1 + 1,
             (DeptService.batch_delete
                (DeptService.baseDelete demoStore "G" false).1 [] false).2.2)) := by
  refine ⟨?_, ?_, ?_⟩
  · exact (claim_C5.1 demoStore "R").1.mpr (by decide)
  · exact claim_C5.2.1 demoStore "R" [] false (by decide)
  · exact claim_C5.2.2 demoStore "G" [] false (by decide) (by decide)

/-! ### Messaging lemmas (claims C6-C10) -/

theorem find?_map_of_pred_eq {α : Type _} (p : α → Bool) (g : α → α)
    (hg : ∀ a, p (g a) = p a) (s : List α) :
    List.find? p (s.map g) = (List.find? p s).map g := by
  induction s with
  | nil => rfl
  | cons a s ih =>
    simp only [List.map_cons, List.find?_cons, hg a]
    cases hpa : p a with
    | true => simp
    | false => simpa using ih

theorem msg_get_by_id_mem {s : List Message} {mid uid : String} {m : Message}
    (h : MessageService.get_by_id s mid uid = some m) :
    m ∈ s ∧ m.id = mid ∧ m.recipient_id = uid ∧ m.is_deleted = false := by
  have hmem := List.mem_of_find?_eq_some h
  have hp := List.find?_some h
  unfold MessageService.ownedBy at hp
  simp only [Bool.and_eq_true, beq_iff_eq, Bool.not_eq_true'] at hp
  exact ⟨hmem, hp.1.1, hp.1.2, hp.2⟩

/-- Claim C7: for a message owned by the calling recipient and unread,
`mark_as_read` reports success and sets `status = "read"`,
`read_at = now`; a second call reports success and leaves the whole
message store (in particular the recorded `read_at`) exactly unchanged. -/
theorem claim_C7 :
    ∀ (s : List Message) (mid uid : String) (t1 t2 : Nat) (m : Message),
      MessageService.get_by_id s mid uid = some m →
      m.status = "unread" →
      ((MessageService.mark_as_read s mid uid t1).2 = true
        ∧ MessageService.get_by_id
            (MessageService.mark_as_read s mid uid t1).1 mid uid
          = some { m with status := "read", read_at := some t1 }
        ∧ MessageService.mark_as_read
            (MessageService.mark_as_read s mid uid t1).1 mid uid t2
          = ((MessageService.mark_as_read s mid uid t1).1, true)) := by
  intro s mid uid t1 t2 m hm hunread
  have hg : ∀ x : Message,
      MessageService.ownedBy mid uid
        (if MessageService.ownedBy mid uid x then
          { x with status := "read", read_at := some t1 } else x)
      = MessageService.ownedBy mid uid x := by
    intro x
    by_cases hx : MessageService.ownedBy mid uid x = true
    · rw [if_pos hx, hx]
      unfold MessageService.ownedBy at hx ⊢
      simp only [Bool.and_eq_true, beq_iff_eq, Bool.not_eq_true'] at hx
      simp [hx.1.1, hx.1.2, hx.2]
    · rw [if_neg hx]
  have hfirst : MessageService.mark_as_read s mid uid t1
      = (s.map (fun x => if MessageService.ownedBy mid uid x then
          { x with status := "read", read_at := some t1 } else x), true) := by
    unfold MessageService.mark_as_read
    rw [hm]
    dsimp only
    rw [if_pos (by simp [hunread])]
  have hlookup : MessageService.get_by_id
      (MessageService.mark_as_read s mid uid t1).1 mid uid
      = some { m with status := "read", read_at := some t1 } := by
    rw [hfirst]
    unfold MessageService.get_by_id at hm ⊢
    rw [find?_map_of_pred_eq (MessageService.ownedBy mid uid) _ hg s, hm]
    have hmp := List.find?_some hm
    simp [hmp]
  refine ⟨by rw [hfirst], hlookup, ?_⟩
  rw [hfirst] at hlookup ⊢
  unfold MessageService.mark_as_read
  rw [hlookup]
  dsimp only
  rw [if_neg (by simp)]

/-- Claim C10: per-message operations are scoped to the calling recipient.
If no live message with the given id belongs to the caller, `get_by_id`
returns nothing and `mark_as_read`/`delete` report failure with the store
exactly unchanged; and for any call whatsoever, every message row whose
`recipient_id` differs from the caller is left unchanged (row for row). -/
theorem claim_C10 :
    (∀ (s : List Message) (mid uid : String) (t : Nat),
      (∀ m ∈ s, ¬(m.id = mid ∧ m.recipient_id = uid ∧ m.is_deleted = false)) →
      (MessageService.get_by_id s mid uid = none
        ∧ MessageService.mark_as_read s mid uid t = (s, false)
        ∧ MessageService.delete s mid uid = (s, false)))
    ∧ (∀ (s : List Message) (mid uid : String) (t : Nat),
        List.Forall₂ (fun mOld mNew : Message =>
            mOld.recipient_id ≠ uid → mNew = mOld)
          s (MessageService.mark_as_read s mid uid t).1)
    ∧ (∀ (s : List Message) (mid uid : String),
        List.Forall₂ (fun mOld mNew : Message =>
            mOld.recipient_id ≠ uid → mNew = mOld)
          s (MessageService.delete s mid uid).1) := by
  have hmap : ∀ (s : List Message) (uid mid : String) (f : Message → Message),
      List.Forall₂ (fun mOld mNew : Message =>
          mOld.recipient_id ≠ uid → mNew = mOld)
        s (s.map (fun x => if MessageService.ownedBy mid uid x then f x else x)) := by
    intro s uid mid f
    induction s with
    | nil => exact List.Forall₂.nil
    | cons a s ih =>
      rw [List.map_cons]
      refine List.Forall₂.cons ?_ ih
      intro hrec
      by_cases ha : MessageService.ownedBy mid uid a = true
      · exfalso
        unfold MessageService.ownedBy at ha
        simp only [Bool.and_eq_true, beq_iff_eq] at ha
        exact hrec ha.1.2
      · rw [if_neg ha]
  have hrefl : ∀ (s : List Message) (uid : String),
      List.Forall₂ (fun mOld mNew : Message =>
          mOld.recipient_id ≠ uid → mNew = mOld) s s := by
    intro s uid
    induction s with
    | nil => exact List.Forall₂.nil
    | cons a s ih => exact List.Forall₂.cons (fun _ => rfl) ih
  refine ⟨?_, ?_, ?_⟩
  · intro s mid uid t hnone
    have hid : MessageService.get_by_id s mid uid = none := by
      unfold MessageService.get_by_id
      rw [List.find?_eq_none]
      intro x hx
      unfold MessageService.ownedBy
      simp only [Bool.and_eq_true, beq_iff_eq, Bool.not_eq_true', not_and]
      intro h1 h2
      exact hnone x hx ⟨h1.1, h1.2, h2⟩
    refine ⟨hid, ?_, ?_⟩
    · unfold MessageService.mark_as_read
      rw [hid]
    · unfold MessageService.delete
      rw [hid]
  · intro s mid uid t
    unfold MessageService.mark_as_read
    cases hm : MessageService.get_by_id s mid uid with
    | none => exact hrefl s uid
    | some m =>
      dsimp only
      by_cases hst : (m.status == "unread") = true
      · rw [if_pos hst]
        exact hmap s uid mid _
      · rw [if_neg hst]
        exact hrefl s uid
  · intro s mid uid
    unfold MessageService.delete
    cases hm : MessageService.get_by_id s mid uid with
    | none => exact hrefl s uid
    | some m =>
      dsimp only
      exact hmap s uid mid _

/-- Demonstration message inbox: one unread message for recipient `u1`
and one for recipient `u2`. -/
def demoMsgs : List Message :=
  [{ id := "m1", recipient_id := "u1", title := "hello", content := "body",
     msg_type := "system", status := "unread", link_type := "", link_id := "",
     read_at := none, sender_id := none, is_deleted := false },
   { id := "m2", recipient_id := "u2", title := "hi", content := "body2",
     msg_type := "todo", status := "unread", link_type := "", link_id := "",
     read_at := none, sender_id := none, is_deleted := false }]

/-- Witness for claim C7: marking `u1`'s unread message `m1` at time 5
succeeds and records `read_at = 5`; marking it again at time 9 succeeds
and changes nothing. -/
theorem claim_C7_witness :
    (MessageService.mark_as_read demoMsgs "m1" "u1" 5).2 = true
    ∧ MessageService.get_by_id
        (MessageService.mark_as_read demoMsgs "m1" "u1" 5).1 "m1" "u1"
      = some { id := "m1", recipient_id := "u1", title := "hello",
               content := "body", msg_type := "system", status := "read",
               link_type := "", link_id := "", read_at := some 5,
               sender_id := none, is_deleted := false }
    ∧ MessageService.mark_as_read
        (MessageService.mark_as_read demoMsgs "m1" "u1" 5).1 "m1" "u1" 9
      = ((MessageService.mark_as_read demoMsgs "m1" "u1" 5).1, true) :=
  claim_C7 demoMsgs "m1" "u1" 5 9
    { id := "m1", recipient_id := "u1", title := "hello", content := "body",
      msg_type := "system", status := "unread", link_type := "",
      link_id := "", read_at := none, sender_id := none, is_deleted := false }
    (by decide) rfl

/-- Witness for claim C10: no live message with id `m1` belongs to `u2`,
so for `u2` the lookup misses and `mark_as_read`/`delete` fail leaving the
store unchanged. -/
theorem claim_C10_witness :
    MessageService.get_by_id demoMsgs "m1" "u2" = none
    ∧ MessageService.mark_as_read demoMsgs "m1" "u2" 7 = (demoMsgs, false)
    ∧ MessageService.delete demoMsgs "m1" "u2" = (demoMsgs, false) :=
  claim_C10.1 demoMsgs "m1" "u2" 7 (by decide)

/-- The row assignment performed by a successful `publish`. -/
def publishedRow (uid : String) (t : Nat) (a : Announcement) : Announcement :=
  { a with
    status := "published",
    publish_time := some t,
    publisher_id := some uid }

/-- Claim C6: `publish` on an existing draft announcement transitions it
to `published` and sets `publish_time`; on an existing non-draft
announcement it raises the state error with the store unchanged, so a
second `publish` fails and the first call's `publish_time` is intact. -/
theorem claim_C6 :
    ∀ (s : List Announcement) (aid uid : String) (t1 t2 : Nat)
      (a : Announcement),
      AnnouncementService.get_by_id s aid = some a →
      ((a.status = "draft" →
          ((AnnouncementService.publish s aid uid t1).2
              = Except.ok (some (publishedRow uid t1 a))
            ∧ AnnouncementService.get_by_id
                (AnnouncementService.publish s aid uid t1).1 aid
              = some (publishedRow uid t1 a)
            ∧ AnnouncementService.publish
                (AnnouncementService.publish s aid uid t1).1 aid uid t2
              = ((AnnouncementService.publish s aid uid t1).1,
                 Except.error "只能发布草稿状态的公告")))
        ∧ (a.status ≠ "draft" →
            AnnouncementService.publish s aid uid t1
              = (s, Except.error "只能发布草稿状态的公告"))) := by
  intro s aid uid t1 t2 a ha
  constructor
  · intro hdraft
    have hg : ∀ x : Announcement,
        ((fun y : Announcement => y.id == aid && !y.is_deleted)
          (if (x.id == aid && !x.is_deleted) = true then
            publishedRow uid t1 x else x))
        = (x.id == aid && !x.is_deleted) := by
      intro x
      by_cases hx : (x.id == aid && !x.is_deleted) = true
      · rw [if_pos hx]
        unfold publishedRow
        simp only [Bool.and_eq_true, beq_iff_eq, Bool.not_eq_true'] at hx
        simp [hx.1, hx.2]
      · rw [if_neg hx]
    have hfirst : AnnouncementService.publish s aid uid t1
        = (AnnouncementService.updateAnn s aid (publishedRow uid t1),
           Except.ok (some (publishedRow uid t1 a))) := by
      unfold AnnouncementService.publish
      rw [ha]
      dsimp only
      rw [if_neg (by simp [hdraft])]
      rfl
    have hlookup : AnnouncementService.get_by_id
        (AnnouncementService.publish s aid uid t1).1 aid
        = some (publishedRow uid t1 a) := by
      rw [hfirst]
      unfold AnnouncementService.get_by_id at ha ⊢
      unfold AnnouncementService.updateAnn
      rw [find?_map_of_pred_eq _ _ hg s, ha]
      have hap := List.find?_some ha
      show some (if (a.id == aid && !a.is_deleted) = true then
        publishedRow uid t1 a else a) = some (publishedRow uid t1 a)
      rw [if_pos hap]
    refine ⟨by rw [hfirst], hlookup, ?_⟩
    rw [hfirst] at hlookup ⊢
    unfold AnnouncementService.publish
    rw [hlookup]
    dsimp only
    rw [if_pos (by simp [publishedRow])]
  · intro hnd
    unfold AnnouncementService.publish
    rw [ha]
    dsimp only
    rw [if_pos (by simp [hnd])]

/-- Demonstration announcement: a draft targeted at everyone. -/
def demoDraft : Announcement :=
  { id := "a1", title := "T", content := "C", summary := "",
    status := "draft", priority := 0, is_top := false,
    target_type := "all", target_ids := [], publish_time := none,
    expire_time := none, publisher_id := none, read_count := some 0,
    is_deleted := false }

/-- Demonstration announcement store containing only the draft. -/
def demoAnns : List Announcement := [demoDraft]

/-- Witness for claim C6: publishing the draft `a1` at time 3 succeeds and
sets `publish_time = 3`; publishing it again at time 8 reports the state
error and leaves the store, hence the recorded `publish_time`,
unchanged. -/
theorem claim_C6_witness :
    (AnnouncementService.publish demoAnns "a1" "admin" 3).2
      = Except.ok (some (publishedRow "admin" 3 demoDraft))
    ∧ AnnouncementService.get_by_id
        (AnnouncementService.publish demoAnns "a1" "admin" 3).1 "a1"
      = some (publishedRow "admin" 3 demoDraft)
    ∧ AnnouncementService.publish
        (AnnouncementService.publish demoAnns "a1" "admin" 3).1 "a1" "admin" 8
      = ((AnnouncementService.publish demoAnns "a1" "admin" 3).1,
         Except.error "只能发布草稿状态的公告") :=
  (claim_C6 demoAnns "a1" "admin" 3 8 demoDraft (by decide)).1 rfl

/-- Number of read records of one (announcement, user) pair; the schema
declares a unique composite index on exactly this pair. -/
def readPairCount (reads : List AnnouncementRead) (aid uid : String) : Nat :=
  reads.countP (fun r => r.announcement_id == aid && r.user_id == uid)

/-- Claim C8: for an existing announcement, the first `mark_as_read` of a
(announcement, user) pair inserts exactly one read record, sets the
announcement's `read_count` to `(read_count or 0) + 1` and reports
success, and a repeated call for the same pair changes nothing and still
reports success; every call keeps the number of records per pair at most
one. -/
theorem claim_C8 :
    (∀ (s : List Announcement) (reads : List AnnouncementRead)
        (aid uid : String) (t1 t2 : Nat) (a : Announcement),
        AnnouncementService.get_by_id s aid = some a →
        readPairCount reads aid uid = 0 →
        ((AnnouncementService.mark_as_read s reads aid uid t1).2.2 = true
          ∧ readPairCount
              (AnnouncementService.mark_as_read s reads aid uid t1).2.1
              aid uid = 1
          ∧ AnnouncementService.get_by_id
              (AnnouncementService.mark_as_read s reads aid uid t1).1 aid
            = some { a with read_count := some (a.read_count.getD 0 + 1) }
          ∧ AnnouncementService.mark_as_read
              (AnnouncementService.mark_as_read s reads aid uid t1).1
              (AnnouncementService.mark_as_read s reads aid uid t1).2.1
              aid uid t2
            = ((AnnouncementService.mark_as_read s reads aid uid t1).1,
               (AnnouncementService.mark_as_read s reads aid uid t1).2.1,
               true)))
    ∧ (∀ (s : List Announcement) (reads : List AnnouncementRead)
        (aid uid : String) (t : Nat),
        readPairCount reads aid uid ≤ 1 →
        readPairCount
          (AnnouncementService.mark_as_read s reads aid uid t).2.1
          aid uid ≤ 1) := by
  constructor
  · intro s reads aid uid t1 t2 a ha hcount
    have hfind : reads.find? (fun r =>
        r.announcement_id == aid && r.user_id == uid) = none := by
      rw [List.find?_eq_none]
      intro r hr
      exact (List.countP_eq_zero.mp hcount) r hr
    have hg : ∀ x : Announcement,
        ((fun y : Announcement => y.id == aid && !y.is_deleted)
          (if (x.id == aid && !x.is_deleted) = true then
            { x with read_count := some (x.read_count.getD 0 + 1) } else x))
        = (x.id == aid && !x.is_deleted) := by
      intro x
      by_cases hx : (x.id == aid && !x.is_deleted) = true
      · rw [if_pos hx]
      · rw [if_neg hx]
    have hfirst : AnnouncementService.mark_as_read s reads aid uid t1
        = (AnnouncementService.updateAnn s aid (fun x =>
            { x with read_count := some (x.read_count.getD 0 + 1) }),
           reads ++ [{ announcement_id := aid, user_id := uid, read_at := some t1 }],
           true) := by
      unfold AnnouncementService.mark_as_read
      rw [ha]
      dsimp only
      rw [hfind]
    have hlookup : AnnouncementService.get_by_id
        (AnnouncementService.mark_as_read s reads aid uid t1).1 aid
        = some { a with read_count := some (a.read_count.getD 0 + 1) } := by
      rw [hfirst]
      unfold AnnouncementService.get_by_id at ha ⊢
      unfold AnnouncementService.updateAnn
      rw [find?_map_of_pred_eq _ _ hg s, ha]
      have hap := List.find?_some ha
      show some (if (a.id == aid && !a.is_deleted) = true then
        { a with read_count := some (a.read_count.getD 0 + 1) } else a)
        = some { a with read_count := some (a.read_count.getD 0 + 1) }
      rw [if_pos hap]
    have hcount1 : readPairCount
        (AnnouncementService.mark_as_read s reads aid uid t1).2.1
        aid uid = 1 := by
      rw [hfirst]
      unfold readPairCount at hcount ⊢
      rw [List.countP_append, hcount]
      simp
    have hfind2 : (AnnouncementService.mark_as_read s reads aid uid t1).2.1.find?
        (fun r => r.announcement_id == aid && r.user_id == uid)
        = some { announcement_id := aid, user_id := uid, read_at := some t1 } := by
      rw [hfirst]
      rw [List.find?_append, hfind]
      simp
    refine ⟨by rw [hfirst], hcount1, hlookup, ?_⟩
    rw [hfirst] at hlookup hfind2 ⊢
    unfold AnnouncementService.mark_as_read
    rw [hlookup]
    dsimp only
    rw [hfind2]
  · intro s reads aid uid t hle
    unfold AnnouncementService.mark_as_read
    cases ha : AnnouncementService.get_by_id s aid with
    | none => exact hle
    | some a =>
      dsimp only
      cases hfind : reads.find? (fun r =>
          r.announcement_id == aid && r.user_id == uid) with
      | some r => exact hle
      | none =>
        dsimp only
        have hzero : readPairCount reads aid uid = 0 := by
          unfold readPairCount
          rw [List.countP_eq_zero]
          exact List.find?_eq_none.mp hfind
        unfold readPairCount at hzero ⊢
        rw [List.countP_append, hzero]
        simp

/-- Witness for claim C8: the first read of announcement `a1` by user
`u1` creates one read record, bumps `read_count` from 0 to 1 and reports
success; the repeated call changes nothing and still reports success. -/
theorem claim_C8_witness :
    (AnnouncementService.mark_as_read demoAnns [] "a1" "u1" 4).2.2 = true
    ∧ readPairCount
        (AnnouncementService.mark_as_read demoAnns [] "a1" "u1" 4).2.1
        "a1" "u1" = 1
    ∧ AnnouncementService.get_by_id
        (AnnouncementService.mark_as_read demoAnns [] "a1" "u1" 4).1 "a1"
      = some { demoDraft with read_count := some (demoDraft.read_count.getD 0 + 1) }
    ∧ AnnouncementService.mark_as_read
        (AnnouncementService.mark_as_read demoAnns [] "a1" "u1" 4).1
        (AnnouncementService.mark_as_read demoAnns [] "a1" "u1" 4).2.1
        "a1" "u1" 6
      = ((AnnouncementService.mark_as_read demoAnns [] "a1" "u1" 4).1,
         (AnnouncementService.mark_as_read demoAnns [] "a1" "u1" 4).2.1,
         true) :=
  claim_C8.1 demoAnns [] "a1" "u1" 4 6 demoDraft (by decide) rfl

/-- Claim C9: a non-deleted, published, non-expired announcement is listed
by `get_user_announcements` (page 1 with a page size covering the store)
for a user exactly when its audience matches: `target_type` is `all`, or
`dept` with one of the user's department ids in `target_ids`, or `role`
with one of the user's role ids, or `user` with the user's own id. -/
theorem claim_C9 :
    ∀ (s : List Announcement) (reads : List AnnouncementRead)
      (user_id : String) (user_dept_ids user_role_ids : List String)
      (now : Nat) (a : Announcement),
      a ∈ s →
      a.status = "published" →
      a.is_deleted = false →
      (∀ t, a.expire_time = some t → now < t) →
      (a ∈ (AnnouncementService.get_user_announcements s reads user_id
              user_dept_ids user_role_ids 1 s.length false now).1.map Prod.fst
        ↔ (a.target_type = "all"
            ∨ (a.target_type = "dept" ∧ ∃ i ∈ user_dept_ids, i ∈ a.target_ids)
            ∨ (a.target_type = "role" ∧ ∃ i ∈ user_role_ids, i ∈ a.target_ids)
            ∨ (a.target_type = "user" ∧ user_id ∈ a.target_ids))) := by
  intro s reads user_id udeps uroles now a hmem hstatus hdel hexp
  have hexpb : (match a.expire_time with
      | none => true
      | some t => decide (now < t)) = true := by
    cases hx : a.expire_time with
    | none => rfl
    | some t => simpa using hexp t hx
  have hvis : AnnouncementService.visibleTo reads user_id udeps uroles
      false now a = AnnouncementService.targetMatch a user_id udeps uroles := by
    unfold AnnouncementService.visibleTo
    simp [hstatus, hdel, hexpb]
  unfold AnnouncementService.get_user_announcements
  dsimp only
  have hlen : ((s.filter (AnnouncementService.visibleTo reads user_id udeps
      uroles false now)).mergeSort AnnouncementService.annBefore).length
      ≤ s.length := by
    rw [(List.mergeSort_perm _ _).length_eq]
    exact List.length_filter_le _ s
  simp only [Nat.sub_self, Nat.zero_mul, List.drop_zero,
    List.take_of_length_le hlen, List.map_map]
  have hid : (Prod.fst ∘ fun a : Announcement =>
      (a, reads.any (fun r => r.user_id == user_id
        && r.announcement_id == a.id))) = fun a => a := rfl
  rw [hid, List.map_id', (List.mergeSort_perm _ _).mem_iff, List.mem_filter]
  rw [hvis]
  unfold AnnouncementService.targetMatch jsonContains
  simp only [hmem, true_and, Bool.or_eq_true, Bool.and_eq_true,
    beq_iff_eq, List.any_eq_true, List.elem_iff, List.contains]
  constructor
  · rintro (((hA | hB) | hC) | hD)
    · exact Or.inl hA
    · obtain ⟨x, hx, ht, hm2⟩ := hB
      exact Or.inr (Or.inl ⟨ht, x, hx, hm2⟩)
    · obtain ⟨x, hx, ht, hm2⟩ := hC
      exact Or.inr (Or.inr (Or.inl ⟨ht, x, hx, hm2⟩))
    · exact Or.inr (Or.inr (Or.inr hD))
  · rintro (hA | ⟨ht, x, hx, hm2⟩ | ⟨ht, x, hx, hm2⟩ | hD)
    · exact Or.inl (Or.inl (Or.inl hA))
    · exact Or.inl (Or.inl (Or.inr ⟨x, hx, ht, hm2⟩))
    · exact Or.inl (Or.inr ⟨x, hx, ht, hm2⟩)
    · exact Or.inr hD

/-- Demonstration announcement targeted at department `D1`. -/
def deptAnn : Announcement :=
  { id := "a2", title := "T2", content := "C2", summary := "",
    status := "published", priority := 0, is_top := false,
    target_type := "dept", target_ids := ["D1"], publish_time := some 1,
    expire_time := none, publisher_id := some "admin", read_count := some 0,
    is_deleted := false }

/-- Witness for claim C9: the announcement targeted at department `D1` is
listed for a user in `D1` and not listed for a user whose only department
is `D2`. -/
theorem claim_C9_witness :
    deptAnn ∈ (AnnouncementService.get_user_announcements [deptAnn] []
        "u1" ["D1"] [] 1 1 false 10).1.map Prod.fst
    ∧ deptAnn ∉ (AnnouncementService.get_user_announcements [deptAnn] []
        "u2" ["D2"] [] 1 1 false 10).1.map Prod.fst := by
  constructor
  · exact (claim_C9 [deptAnn] [] "u1" ["D1"] [] 10 deptAnn (by decide)
      rfl rfl (fun t ht => by simp [deptAnn] at ht)).mpr
      (Or.inr (Or.inl ⟨rfl, "D1", by decide, by decide⟩))
  · intro hmem
    have h := (claim_C9 [deptAnn] [] "u2" ["D2"] [] 10 deptAnn (by decide)
      rfl rfl (fun t ht => by simp [deptAnn] at ht)).mp hmem
    exact absurd h (by decide)
